import Mathlib

/-!
Verification of the documentation generator (`docs/main_generator.py`).

The Python source is shallowly embedded: strings are Lean `String`s viewed
through their `List Char` data, Python dictionaries become insertion-ordered
association lists, the filesystem state touched by the output scaffolder
becomes an `Option` of a directory-entry list, and subprocess outcomes become
inductive values.  Every definition mirrors the corresponding Python function
line by line.
-/

namespace DocsGen

/-- The newline character, `'\n'` in the Python source. -/
def nlChar : Char := Char.ofNat 10

/-- The one-character newline string used by `'\n'.join` and `split('\n')`. -/
def nl : String := String.singleton nlChar

/-- Python `str.strip()` whitespace: space, tab, newline, carriage return,
vertical tab, form feed. -/
def isPySpace (c : Char) : Bool :=
  c = Char.ofNat 32 || c = Char.ofNat 9 || c = Char.ofNat 10 ||
  c = Char.ofNat 13 || c = Char.ofNat 11 || c = Char.ofNat 12

/-- Drop leading Python whitespace from a character list. -/
def lstripL (l : List Char) : List Char := l.dropWhile isPySpace

/-- Drop trailing Python whitespace from a character list. -/
def rstripL (l : List Char) : List Char := (lstripL l.reverse).reverse

/-- Python `str.strip()` on the character list. -/
def pyStripL (l : List Char) : List Char := rstripL (lstripL l)

/-- Python `str.strip()`. -/
def pyStrip (s : String) : String := String.mk (pyStripL s.data)

/-- Helper for `splitLines`: scan characters, accumulating the current line
(reversed) in `acc`. -/
def splitLinesAux (acc : List Char) : List Char → List String
  | [] => [String.mk acc.reverse]
  | c :: rest =>
    if c = nlChar then String.mk acc.reverse :: splitLinesAux [] rest
    else splitLinesAux (c :: acc) rest

/-- Python `s.split('\n')`: always returns at least one (possibly empty)
line; a trailing newline yields a trailing empty line. -/
def splitLines (s : String) : List String := splitLinesAux [] s.data

/-- Python `'\n'.join(lines)`. -/
def joinLines : List String → String
  | [] => ""
  | [s] => s
  | s :: rest => s ++ nl ++ joinLines rest

/-- Python `s.startswith(p)`. -/
def strStarts (p s : String) : Bool := p.data.isPrefixOf s.data

def squoteChar : Char := Char.ofNat 39
def dquoteChar : Char := Char.ofNat 34
def bslashChar : Char := Char.ofNat 92

/-- One step of the quote escaping performed on comment and plain-text lines:
`replace("'", "\\'").replace('"', '\\"')`. -/
def escChar (c : Char) : List Char :=
  if c = squoteChar then [bslashChar, squoteChar]
  else if c = dquoteChar then [bslashChar, dquoteChar]
  else [c]

/-- Quote escaping on a character list. -/
def escL (l : List Char) : List Char := l.flatMap escChar

/-- `text.replace("'", "\\'").replace('"', '\\"')` from the Python source;
since the first replacement introduces no double quotes, the two sequential
single-character replacements act independently on each character. -/
def escapeQuotes (s : String) : String := String.mk (escL s.data)

/-! ## The doc-output cleaner (`clean_go_doc_output`) -/

/-- The declaration keywords that open a code block (lines 370–375 of
`main_generator.py`). -/
def declKeywords : List String :=
  ["func ", "type ", "const ", "var ", "package ", "import "]

/-- Whether a (stripped) line starts a code block. -/
def isDeclLine (s : String) : Bool := declKeywords.any (fun k => strStarts k s)

/-- The loop state of `clean_go_doc_output`: `cleaned_lines`,
`in_code_block`, `code_block_content`, `constants_removed`,
`types_removed`. -/
structure CleanState where
  cleaned : List String
  inCode : Bool
  blockContent : List String
  constantsRemoved : Bool
  typesRemoved : Bool
deriving DecidableEq

def initState : CleanState := ⟨[], false, [], false, false⟩

/-- Closing an open code block: emit a generic fence, the accumulated
content, and a closing fence (only when the content is nonempty). -/
def flushBlock (st : CleanState) : List String :=
  if st.inCode && !st.blockContent.isEmpty then
    st.cleaned ++ ["```"] ++ st.blockContent ++ ["```"]
  else st.cleaned

/-- One iteration of the `for line in lines` loop of
`clean_go_doc_output`. -/
def processLine (st : CleanState) (line : String) : CleanState :=
  let stripped := pyStrip line
  if st.cleaned.isEmpty && stripped == "" then st
  else if !st.constantsRemoved && stripped == "CONSTANTS" then
    { st with constantsRemoved := true }
  else if !st.typesRemoved && stripped == "TYPES" then
    { st with typesRemoved := true }
  else if isDeclLine stripped then
    { cleaned := flushBlock st, inCode := true, blockContent := [stripped],
      constantsRemoved := st.constantsRemoved, typesRemoved := st.typesRemoved }
  else if st.inCode then
    { st with blockContent := st.blockContent ++ [stripped] }
  else if strStarts "//" stripped then
    let comment := pyStrip (String.mk (stripped.data.drop 2))
    if comment == "" then st
    else { st with cleaned := st.cleaned ++ ["*" ++ escapeQuotes comment ++ "*"] }
  else if stripped == "" then st
  else { st with cleaned := st.cleaned ++ [escapeQuotes stripped] }

/-- The loop state after processing all lines. -/
def cleanStateOf (lines : List String) : CleanState := lines.foldl processLine initState

/-- The final emitted line list: loop result plus the end-of-input block
closing (lines 413–418). -/
def finalLines (st : CleanState) : List String := flushBlock st

/-- The line list `cleaned_lines` just before the final
`'\n'.join(...).strip()`, for a given raw `doc_output`; the first input
line is removed unconditionally before the loop. -/
def emittedLines (doc_output : String) : List String :=
  finalLines (cleanStateOf (splitLines doc_output).tail)

/-- `clean_go_doc_output` from `main_generator.py`. -/
def clean_go_doc_output (doc_output : String) : String :=
  if doc_output == "" then ""
  else pyStrip (joinLines (emittedLines doc_output))

/-! ## The README sectionizer (`extract_readme_content`) -/

/-- Python `str.lower()` restricted to a character (ASCII case mapping). -/
def lowerChar (c : Char) : Char := Char.toLower c

/-- A character kept by `re.sub(r'[^a-z0-9\s-]', '', ...)`: lowercase ASCII
letters, digits, hyphen, or whitespace. -/
def isKeepChar (c : Char) : Bool :=
  (97 ≤ c.toNat && c.toNat ≤ 122) || (48 ≤ c.toNat && c.toNat ≤ 57) ||
  c.toNat = 45 || isPySpace c

/-- `re.sub(r'\s+', '-', ...)`: each maximal whitespace run becomes one
hyphen.  `prevWs` records whether the previous character was whitespace. -/
def collapseWsAux (prevWs : Bool) : List Char → List Char
  | [] => []
  | c :: rest =>
    if isPySpace c then
      if prevWs then collapseWsAux true rest
      else Char.ofNat 45 :: collapseWsAux true rest
    else c :: collapseWsAux false rest

/-- The section name derived from a `## ` heading line:
`line[3:].strip().lower()`, then drop characters outside `[a-z0-9\s-]`,
then collapse whitespace runs to hyphens. -/
def sectionName (line : String) : String :=
  let t := (pyStripL (line.data.drop 3)).map lowerChar
  String.mk (collapseWsAux false (t.filter isKeepChar))

/-- The transient section dictionary: insertion-ordered association list
from section name to accumulated lines (a Python `dict`). -/
abbrev Sections := List (String × List String)

/-- Python `k in sections` / `sections[k]` lookup. -/
def dictGet (m : Sections) (k : String) : Option (List String) :=
  match m with
  | [] => none
  | (k2, v) :: rest => if k2 = k then some v else dictGet rest k

/-- Python `sections[k] = v`: overwrite in place, or insert at the end. -/
def dictSet (m : Sections) (k : String) (v : List String) : Sections :=
  match m with
  | [] => [(k, v)]
  | (k2, v2) :: rest => if k2 = k then (k2, v) :: rest else (k2, v2) :: dictSet rest k v

/-- Python `sections[k].append(line)` (the key is already present). -/
def dictAppend (m : Sections) (k : String) (line : String) : Sections :=
  match m with
  | [] => []
  | (k2, v) :: rest =>
    if k2 = k then (k2, v ++ [line]) :: rest else (k2, v) :: dictAppend rest k line

/-- The `for line in lines` loop of `extract_readme_content`. -/
def extractLoop (sections : Sections) (cur : String) : List String → Sections
  | [] => sections
  | line :: rest =>
    if strStarts "## " line then
      let name := sectionName line
      extractLoop (dictSet sections name []) name rest
    else if strStarts "# " line then
      extractLoop (dictSet sections "introduction" [line]) "introduction" rest
    else
      let sections2 := if (dictGet sections cur).isNone then dictSet sections cur [] else sections
      extractLoop (dictAppend sections2 cur line) cur rest

/-- `extract_readme_content` from `main_generator.py`, as a function of the
README text (the file-reading wrapper returns `{}` when the file is
missing).  The final pass joins and strips each section. -/
def extract_readme_content (content : String) : List (String × String) :=
  (extractLoop [] "introduction" (splitLines content)).map
    (fun p => (p.1, pyStrip (joinLines p.2)))

/-! ## The page writer (`create_markdown_files`) -/

/-- The fixed section-to-file mapping. -/
def section_files : List (String × String) :=
  [("introduction", "introduction.md"),
   ("installation", "installation.md"),
   ("authentication", "authentication.md"),
   ("regions", "regions.md"),
   ("global-services", "regions.md"),
   ("project-structure", "project-structure.md"),
   ("usage-examples", "usage.md"),
   ("error-handling", "error-handling.md"),
   ("contributing", "contributing.md")]

/-- `section in section_files` / `section_files[section]`. -/
def lookupFile (k : String) : Option String :=
  (section_files.find? (fun p => p.1 == k)).map Prod.snd

/-- `section.replace('-', ' ')`. -/
def replaceDashSpace (s : String) : String :=
  String.mk (s.data.map (fun c => if c.toNat = 45 then Char.ofNat 32 else c))

def isAsciiLetter (c : Char) : Bool :=
  (65 ≤ c.toNat && c.toNat ≤ 90) || (97 ≤ c.toNat && c.toNat ≤ 122)

/-- Python `str.title()` on ASCII text: a letter after a non-letter is
uppercased, a letter after a letter is lowercased. -/
def titleAux (prevAlpha : Bool) : List Char → List Char
  | [] => []
  | c :: rest =>
    if isAsciiLetter c then
      (if prevAlpha then Char.toLower c else Char.toUpper c) :: titleAux true rest
    else c :: titleAux false rest

/-- Python `str.title()`. -/
def pyTitle (s : String) : String := String.mk (titleAux false s.data)

/-- Python `s.replace(pat, sub, 1)` on character lists (first occurrence
only). -/
def replaceFirstAux (pat sub : List Char) : List Char → List Char
  | [] => []
  | c :: rest =>
    if pat.isPrefixOf (c :: rest) then sub ++ (c :: rest).drop pat.length
    else c :: replaceFirstAux pat sub rest

/-- Header-level normalization: `line.replace('### ', '## ', 1)` applied to
lines starting with `### `. -/
def fixHeaderLine (line : String) : String :=
  if strStarts "### " line then
    String.mk (replaceFirstAux "### ".data "## ".data line.data)
  else line

/-- The generated page text: front-matter, a level-1 heading, and the
header-normalized section content. -/
def markdownFor (section_ content : String) : String :=
  let title := pyTitle (replaceDashSpace section_)
  let processed := joinLines ((splitLines content).map fixHeaderLine)
  "---" ++ nl ++ "title: " ++ title ++ nl ++ "---" ++ nl ++ nl ++
    "# " ++ title ++ nl ++ nl ++ processed ++ nl

/-- `create_markdown_files` from `main_generator.py`, returned as the
ordered list of `(filename, file content)` pairs it writes. -/
def create_markdown_files (readme_sections : List (String × String)) :
    List (String × String) :=
  readme_sections.filterMap (fun p =>
    match lookupFile p.1 with
    | none => none
    | some filename =>
      if pyStrip p.2 == "" then none else some (filename, markdownFor p.1 p.2))

/-! ## The version resolver (`get_project_version`) -/

/-- The environment seen by the version resolver: the platform flag, the two
environment variables (`none` models an unset variable), and the outcome of
`git describe --tags` (`none` models the call raising). -/
structure VersionEnv where
  isReadthedocs : Bool
  versionVar : Option String
  rtdVersionVar : Option String
  gitOutcome : Option (Int × String)
deriving DecidableEq

/-- `get_project_version_from_git`: the stripped stdout on exit status 0,
the hardcoded default otherwise. -/
def get_project_version_from_git (env : VersionEnv) : String :=
  match env.gitOutcome with
  | none => "0.3.45"
  | some (rc, out) => if rc = 0 then pyStrip out else "0.3.45"

/-- Python truthiness of `os.environ.get(...)`. -/
def optTruthy : Option String → Bool
  | none => false
  | some s => s != ""

/-- `get_project_version` from `main_generator.py`. -/
def get_project_version (env : VersionEnv) : String :=
  let version : Option String :=
    if !env.isReadthedocs then some (get_project_version_from_git env)
    else
      let v := if optTruthy env.versionVar then env.versionVar else env.rtdVersionVar
      match v with
      | none => none
      | some s =>
        if s != "" && (s == "latest" || s == "stable") then
          some (get_project_version_from_git env)
        else some s
  match version with
  | none => "0.3.45"
  | some s =>
    if pyStrip s != "" then
      let s2 := pyStrip s
      if strStarts "v" s2 then String.mk (s2.data.drop 1) else s2
    else "0.3.45"

/-! ## The external-doc fetcher (`get_go_doc_for_package`) -/

/-- The outcome of the `go doc -all <module>` subprocess call:
the call raising (e.g. the binary being absent), timing out, or completing
with an exit status and captured stdout. -/
inductive GoDocOutcome
  | unavailable
  | timeout
  | completed (rc : Int) (stdout : String)
deriving DecidableEq

/-- What `get_go_doc_for_package` produces: the returned string and whether
a warning was printed. -/
structure GoDocResult where
  result : String
  warned : Bool
deriving DecidableEq

/-- `get_go_doc_for_package` from `main_generator.py`. -/
def get_go_doc_for_package (outcome : GoDocOutcome) : GoDocResult :=
  match outcome with
  | .unavailable => ⟨"", true⟩
  | .timeout => ⟨"", true⟩
  | .completed rc stdout =>
    if rc = 0 && pyStrip stdout != "" then ⟨clean_go_doc_output stdout, false⟩
    else ⟨"", true⟩

/-- The module page content built by `create_module_documentation` after the
fetch: the title header, plus the cleaned documentation when nonempty.  The
page is written in either case, so later steps still run after a failed
fetch. -/
def moduleDocContent (module_name : String) (outcome : GoDocOutcome) : String :=
  let header := "# " ++ pyTitle module_name ++ nl ++ nl
  let doc := (get_go_doc_for_package outcome).result
  if doc != "" then header ++ doc ++ nl ++ nl else header

/-! ## The output scaffolder (`clean_output_directory`) -/

/-- A filesystem node: a file with text content or a directory. -/
inductive FsNode
  | file (content : String)
  | dir (entries : List (String × FsNode))

/-- The state of the `output/` path: `none` when no directory exists there,
`some entries` for a directory with the given entries. -/
abbrev OutDir := Option (List (String × FsNode))

/-- `if self.output_dir.exists(): shutil.rmtree(self.output_dir)`. -/
def rmtreeIfExists : OutDir → OutDir
  | some _ => none
  | none => none

/-- `self.output_dir.mkdir(exist_ok=True)`. -/
def mkdirExistOk : OutDir → OutDir
  | none => some []
  | some d => some d

/-- `clean_output_directory` from `main_generator.py`, as a transformer of
the `output/` directory state. -/
def clean_output_directory (s : OutDir) : OutDir := mkdirExistOk (rmtreeIfExists s)

/-! ## Helper lemmas -/

/-- `dropWhile` keeps a suffix whose first element falsifies the predicate. -/
theorem cons_suffix_dropWhile {α} (p : α → Bool) {c : α} {s l : List α}
    (hc : p c = false) (h : (c :: s) <:+ l) : (c :: s) <:+ l.dropWhile p := by
  induction l with
  | nil => simp at h
  | cons a l ih =>
    rcases List.suffix_cons_iff.mp h with heq | h2
    · obtain ⟨rfl, rfl⟩ : a = c ∧ l = s := by
        injection heq with h1 h2; exact ⟨h1.symm, h2.symm⟩
      rw [List.dropWhile_cons, if_neg (by simp [hc])]
    · rw [List.dropWhile_cons]
      by_cases hpa : p a
      · rw [if_pos hpa]; exact ih h2
      · rw [if_neg hpa]; exact h2.trans (List.suffix_cons a l)

theorem lstripL_cons_of_head {c : Char} {d : List Char} (hc : isPySpace c = false) :
    lstripL (c :: d) = c :: d := by
  rw [lstripL, List.dropWhile_cons, if_neg (by simp [hc])]

theorem rstripL_cons_of_head {c : Char} {d : List Char} (hc : isPySpace c = false) :
    ∃ d2, rstripL (c :: d) = c :: d2 := by
  have h1 : [c] <:+ (c :: d).reverse := by
    rw [List.reverse_cons]; exact ⟨d.reverse, rfl⟩
  obtain ⟨t, ht⟩ := cons_suffix_dropWhile isPySpace hc h1
  refine ⟨t.reverse, ?_⟩
  rw [rstripL, lstripL, ← ht, List.reverse_append, List.reverse_cons, List.reverse_nil,
    List.nil_append, List.singleton_append]

theorem pyStripL_cons_of_head {c : Char} {d : List Char} (hc : isPySpace c = false) :
    ∃ d2, pyStripL (c :: d) = c :: d2 := by
  rw [pyStripL, lstripL_cons_of_head hc]
  exact rstripL_cons_of_head hc

theorem pyStrip_data_cons {s : String} {c : Char} {d : List Char}
    (hs : s.data = c :: d) (hc : isPySpace c = false) :
    ∃ d2, (pyStrip s).data = c :: d2 := by
  obtain ⟨d2, hd⟩ := pyStripL_cons_of_head (d := d) hc
  exact ⟨d2, by rw [pyStrip, hs]; exact hd⟩

/-! ## Claim theorems -/

/-- Claim C9 (confirmed): running the output scaffolder twice leaves the
output directory in the same state as running it once; a single run yields
an empty output directory. -/
theorem C9_scaffolder_idempotent : ∀ s : OutDir,
    clean_output_directory (clean_output_directory s) = clean_output_directory s ∧
    clean_output_directory s = some [] := by
  intro s; cases s <;> exact ⟨rfl, rfl⟩

/-- Claim C7 (confirmed): if the `go doc` call raises, times out, or exits
nonzero, `get_go_doc_for_package` returns the empty string with a warning
logged, and the module page for any module is still produced (with just its
title header), so the run proceeds. -/
theorem C7_godoc_failure_yields_empty (outcome : GoDocOutcome) (m : String)
    (h : outcome = .unavailable ∨ outcome = .timeout ∨
      ∃ rc stdout, outcome = .completed rc stdout ∧ rc ≠ 0) :
    (get_go_doc_for_package outcome).result = "" ∧
    (get_go_doc_for_package outcome).warned = true ∧
    moduleDocContent m outcome = "# " ++ pyTitle m ++ nl ++ nl := by
  rcases h with rfl | rfl | ⟨rc, stdout, rfl, hrc⟩
  · exact ⟨rfl, rfl, rfl⟩
  · exact ⟨rfl, rfl, rfl⟩
  · have hcond : (decide (rc = 0) && (pyStrip stdout != "")) = false := by
      simp [hrc]
    have hres : get_go_doc_for_package (.completed rc stdout) = ⟨"", true⟩ := by
      rw [get_go_doc_for_package, if_neg (by simp [hcond])]
    refine ⟨by rw [hres], by rw [hres], ?_⟩
    rw [moduleDocContent, hres]
    simp

/-- Witness for C7 at the timeout outcome and the `compute` module. -/
theorem C7_witness :
    (get_go_doc_for_package .timeout).result = "" ∧
    (get_go_doc_for_package .timeout).warned = true ∧
    moduleDocContent "compute" .timeout = "# " ++ pyTitle "compute" ++ nl ++ nl :=
  C7_godoc_failure_yields_empty .timeout "compute" (Or.inr (Or.inl rfl))

/-- The README input of the spec's example scenario. -/
def c3Input : String := "# Title\n## Installation\nrun this\n## Usage\ndo that"

/-- Claim C3 counterexample: on the spec's example input the sectionizer
does produce the three sections, but the page writer writes only two files;
the `usage` section has no entry in the section-to-file mapping, so no
third file is written. -/
theorem C3_counterexample :
    extract_readme_content c3Input =
      [("introduction", "# Title"), ("installation", "run this"), ("usage", "do that")] ∧
    lookupFile "usage" = none ∧
    (create_markdown_files (extract_readme_content c3Input)).map Prod.fst =
      ["introduction.md", "installation.md"] := by
  refine ⟨by decide, by decide, by decide⟩

/-- Claim C3 (corrected): the sectionizer produces the three sections, and
the page writer writes the two mapped ones (`introduction`, `installation`)
with titleized front-matter; `usage` is unmapped and skipped. -/
theorem C3_amended_scenario :
    extract_readme_content c3Input =
      [("introduction", "# Title"), ("installation", "run this"), ("usage", "do that")] ∧
    create_markdown_files (extract_readme_content c3Input) =
      [("introduction.md", "---\ntitle: Introduction\n---\n\n# Introduction\n\n# Title\n"),
       ("installation.md", "---\ntitle: Installation\n---\n\n# Installation\n\nrun this\n")] := by
  refine ⟨by decide, by decide⟩

/-- Claim C5 counterexample: an input whose lines contain the literal line
`CONSTANTS` exactly twice, yet the cleaner's output retains no occurrence:
the first is consumed by the unconditional first-line drop and the second
by the removal flag. -/
theorem C5_counterexample :
    (splitLines ("CONSTANTS" ++ nl ++ "x" ++ nl ++ "CONSTANTS")).count "CONSTANTS" = 2 ∧
    clean_go_doc_output ("CONSTANTS" ++ nl ++ "x" ++ nl ++ "CONSTANTS") = "x" ∧
    (splitLines (clean_go_doc_output ("CONSTANTS" ++ nl ++ "x" ++ nl ++ "CONSTANTS"))).count
      "CONSTANTS" = 0 := by
  refine ⟨by decide, by decide, by decide⟩

/-- Claim C1 counterexample: two consecutive declaration lines are emitted
in two separate fenced code blocks (four fence lines), not one shared
block. -/
theorem C1_counterexample :
    clean_go_doc_output ("h" ++ nl ++ "func a" ++ nl ++ "func b") =
      "```\nfunc a\n```\n```\nfunc b\n```" ∧
    (splitLines (clean_go_doc_output ("h" ++ nl ++ "func a" ++ nl ++ "func b"))).count
      "```" = 4 := by
  refine ⟨by decide, by decide⟩

/-- Claim C2 counterexample: a non-declaration line arriving while a code
block is open is emitted inside the block, not outside it. -/
theorem C2_counterexample :
    clean_go_doc_output ("h" ++ nl ++ "func a" ++ nl ++ "plain") =
      "```\nfunc a\nplain\n```" ∧
    splitLines (clean_go_doc_output ("h" ++ nl ++ "func a" ++ nl ++ "plain")) =
      ["```", "func a", "plain", "```"] := by
  refine ⟨by decide, by decide⟩

/-- Claim C6 (confirmed): on the documentation platform, a nonempty
`VERSION` value starting with `v` resolves to that value trimmed and with
the leading `v` removed. -/
theorem C6_version_v_stripped (env : VersionEnv) (s : String)
    (h1 : env.isReadthedocs = true) (h2 : env.versionVar = some s)
    (h3 : s ≠ "") (h4 : strStarts "v" s = true) :
    get_project_version env = String.mk ((pyStrip s).data.drop 1) := by
  obtain ⟨d, hd⟩ : ∃ d, s.data = Char.ofNat 118 :: d := by
    rw [strStarts] at h4
    obtain ⟨t, ht⟩ := List.isPrefixOf_iff_prefix.mp h4
    exact ⟨t, ht.symm⟩
  have hnotv : isPySpace (Char.ofNat 118) = false := by decide
  obtain ⟨d2, hd2⟩ := pyStrip_data_cons hd hnotv
  have hlatest : s ≠ "latest" := by rintro rfl; revert h4; decide
  have hstable : s ≠ "stable" := by rintro rfl; revert h4; decide
  have hstripne : pyStrip s ≠ "" := by
    intro h; rw [h] at hd2; exact List.noConfusion hd2
  have hnb : ¬((!env.isReadthedocs) = true) := by rw [h1]; decide
  have ht : optTruthy (some s) = true := by simp [optTruthy, h3]
  have hv : (if optTruthy env.versionVar then env.versionVar else env.rtdVersionVar) =
      some s := by
    rw [h2, if_pos ht]
  have hcond2 : ¬((s != "" && (s == "latest" || s == "stable")) = true) := by
    simp [hlatest, hstable]
  have hversion :
      (if !env.isReadthedocs then some (get_project_version_from_git env)
       else
        let v := if optTruthy env.versionVar then env.versionVar else env.rtdVersionVar
        match v with
        | none => none
        | some s =>
          if s != "" && (s == "latest" || s == "stable") then
            some (get_project_version_from_git env)
          else some s) = some s := by
    rw [if_neg hnb]
    show (match (if optTruthy env.versionVar then env.versionVar else env.rtdVersionVar) with
      | none => (none : Option String)
      | some s =>
        if s != "" && (s == "latest" || s == "stable") then
          some (get_project_version_from_git env)
        else some s) = some s
    rw [hv]
    show (if s != "" && (s == "latest" || s == "stable") then
      some (get_project_version_from_git env) else some s) = some s
    rw [if_neg hcond2]
  rw [get_project_version]
  show (match (if !env.isReadthedocs then some (get_project_version_from_git env)
       else
        let v := if optTruthy env.versionVar then env.versionVar else env.rtdVersionVar
        match v with
        | none => none
        | some s =>
          if s != "" && (s == "latest" || s == "stable") then
            some (get_project_version_from_git env)
          else some s) with
    | none => "0.3.45"
    | some s =>
      if pyStrip s != "" then
        let s2 := pyStrip s
        if strStarts "v" s2 then String.mk (s2.data.drop 1) else s2
      else "0.3.45") = String.mk ((pyStrip s).data.drop 1)
  rw [hversion]
  have h5 : (pyStrip s != "") = true := by simp [hstripne]
  show (if pyStrip s != "" then
      let s2 := pyStrip s
      if strStarts "v" s2 then String.mk (s2.data.drop 1) else s2
    else "0.3.45") = String.mk ((pyStrip s).data.drop 1)
  rw [if_pos h5]
  have h6 : strStarts "v" (pyStrip s) = true := by
    rw [strStarts]
    apply List.isPrefixOf_iff_prefix.mpr
    rw [hd2]
    exact ⟨d2, rfl⟩
  show (if strStarts "v" (pyStrip s) then String.mk ((pyStrip s).data.drop 1)
    else pyStrip s) = String.mk ((pyStrip s).data.drop 1)
  rw [if_pos h6]

/-- Witness for C6: `VERSION=v1.2.3` on the documentation platform. -/
theorem C6_witness :
    get_project_version ⟨true, some "v1.2.3", none, none⟩ = "1.2.3" := by
  have h := C6_version_v_stripped ⟨true, some "v1.2.3", none, none⟩ "v1.2.3"
    rfl rfl (by decide) (by decide)
  rw [h]; decide

/-! ## Line-splitting lemmas -/

theorem splitLinesAux_no_nl (acc : List Char) (m : List Char) (hm : nlChar ∉ m) :
    splitLinesAux acc m = [String.mk (acc.reverse ++ m)] := by
  induction m generalizing acc with
  | nil => simp [splitLinesAux]
  | cons c r ih =>
    have hc : ¬(c = nlChar) := fun h => hm (h ▸ List.mem_cons_self c r)
    rw [splitLinesAux, if_neg hc, ih (c :: acc) (fun h => hm (List.mem_cons_of_mem c h))]
    simp

theorem splitLinesAux_append_nl (acc m r : List Char) (hm : nlChar ∉ m) :
    splitLinesAux acc (m ++ nlChar :: r) =
      String.mk (acc.reverse ++ m) :: splitLinesAux [] r := by
  induction m generalizing acc with
  | nil => simp [splitLinesAux]
  | cons c t ih =>
    have hc : ¬(c = nlChar) := fun h => hm (h ▸ List.mem_cons_self c t)
    rw [List.cons_append, splitLinesAux, if_neg hc,
      ih (c :: acc) (fun h => hm (List.mem_cons_of_mem c h))]
    simp

theorem splitLinesAux_ne_nil (acc : List Char) (m : List Char) :
    splitLinesAux acc m ≠ [] := by
  induction m generalizing acc with
  | nil => simp [splitLinesAux]
  | cons c r ih =>
    rw [splitLinesAux]
    by_cases hc : c = nlChar
    · rw [if_pos hc]; exact List.cons_ne_nil _ _
    · rw [if_neg hc]; exact ih (c :: acc)

theorem splitLines_ne_nil (s : String) : splitLines s ≠ [] := splitLinesAux_ne_nil [] s.data

theorem splitLines_no_nl (s : String) (h : nlChar ∉ s.data) : splitLines s = [s] := by
  rw [splitLines, splitLinesAux_no_nl [] s.data h]
  rfl

theorem splitLines_append (l rest : String) (h : nlChar ∉ l.data) :
    splitLines (l ++ nl ++ rest) = l :: splitLines rest := by
  have hd : (l ++ nl ++ rest).data = l.data ++ nlChar :: rest.data := by
    simp [nl, String.singleton]
  rw [splitLines, hd, splitLinesAux_append_nl [] l.data rest.data h]
  rfl

theorem joinLines_cons_of_ne_nil (s : String) (rest : List String) (h : rest ≠ []) :
    joinLines (s :: rest) = s ++ nl ++ joinLines rest := by
  cases rest with
  | nil => exact absurd rfl h
  | cons a t => rfl

theorem joinLines_splitLinesAux (acc : List Char) (m : List Char) :
    joinLines (splitLinesAux acc m) = String.mk (acc.reverse ++ m) := by
  induction m generalizing acc with
  | nil => simp [splitLinesAux, joinLines]
  | cons c r ih =>
    rw [splitLinesAux]
    by_cases hc : c = nlChar
    · rw [if_pos hc,
        joinLines_cons_of_ne_nil _ _ (splitLinesAux_ne_nil [] r), ih []]
      apply String.ext
      simp [nl, String.singleton, hc]
    · rw [if_neg hc, ih (c :: acc)]
      simp

theorem joinLines_splitLines (s : String) : joinLines (splitLines s) = s := by
  rw [splitLines, joinLines_splitLinesAux]
  rfl

theorem string_ne_empty_of_data {s : String} {c : Char} {d : List Char}
    (h : s.data = c :: d) : ¬((s == "") = true) := by
  intro hh
  have : s = "" := by simpa using hh
  rw [this] at h
  exact List.noConfusion h

theorem string_ne_empty_of_data_ne_nil {s : String} (h : s.data ≠ []) :
    ¬((s == "") = true) := by
  intro hh
  have : s = "" := by simpa using hh
  rw [this] at h
  exact h rfl

/-- Claim C10 (confirmed): the cleaner's output never depends on the first
input line — any first line is discarded before the other rules apply —
and an input without any newline produces empty output. -/
theorem C10_first_line_dropped (l rest : String) (h : nlChar ∉ l.data) :
    clean_go_doc_output (l ++ nl ++ rest) = clean_go_doc_output (nl ++ rest) ∧
    clean_go_doc_output l = "" := by
  constructor
  · have h1 : (l ++ nl ++ rest).data = l.data ++ nlChar :: rest.data := by
      simp [nl, String.singleton]
    have h2 : (nl ++ rest).data = nlChar :: rest.data := by
      simp [nl, String.singleton]
    have hne1 := string_ne_empty_of_data_ne_nil (s := l ++ nl ++ rest) (by rw [h1]; simp)
    have hne2 := string_ne_empty_of_data (s := nl ++ rest) h2
    rw [clean_go_doc_output, clean_go_doc_output, if_neg hne1, if_neg hne2]
    have htails : (splitLines (l ++ nl ++ rest)).tail = (splitLines (nl ++ rest)).tail := by
      have e1 : splitLines (l ++ nl ++ rest) = l :: splitLines rest :=
        splitLines_append l rest h
      have e2 : splitLines (nl ++ rest) = "" :: splitLines rest := by
        rw [splitLines, h2]
        have : (nlChar :: rest.data) = [] ++ nlChar :: rest.data := rfl
        rw [this, splitLinesAux_append_nl [] [] rest.data (by simp)]
        rfl
      rw [e1, e2]
      rfl
    rw [emittedLines, emittedLines, htails]
  · by_cases hl : l = ""
    · rw [hl]; rfl
    · have hld : ∃ c d, l.data = c :: d := by
        cases hcd : l.data with
        | nil => exact absurd (String.ext hcd) hl
        | cons c d => exact ⟨c, d, rfl⟩
      obtain ⟨c, d, hcd⟩ := hld
      rw [clean_go_doc_output, if_neg (string_ne_empty_of_data hcd)]
      rw [emittedLines, splitLines_no_nl l h]
      rfl

/-- Witness for C10 with a non-blank first line. -/
theorem C10_witness :
    clean_go_doc_output ("func x" ++ nl ++ "hello") = clean_go_doc_output (nl ++ "hello") ∧
    clean_go_doc_output "func x" = "" :=
  C10_first_line_dropped "func x" "hello" (by decide)

/-! ## Sectionizer lemmas -/

theorem extractLoop_plain (acc : List String) (ls : List String)
    (h2 : ∀ l ∈ ls, strStarts "## " l = false)
    (h1 : ∀ l ∈ ls, strStarts "# " l = false) :
    extractLoop [("introduction", acc)] "introduction" ls =
      [("introduction", acc ++ ls)] := by
  induction ls generalizing acc with
  | nil => simp [extractLoop]
  | cons line rest ih =>
    have hA : ¬(strStarts "## " line = true) := by
      rw [h2 line (List.mem_cons_self line rest)]; decide
    have hB : ¬(strStarts "# " line = true) := by
      rw [h1 line (List.mem_cons_self line rest)]; decide
    rw [extractLoop, if_neg hA, if_neg hB]
    have hget : dictGet [("introduction", acc)] "introduction" = some acc := by
      simp [dictGet]
    rw [hget]
    simp only [Option.isNone_some, Bool.false_eq_true, if_false]
    have happ : dictAppend [("introduction", acc)] "introduction" line =
        [("introduction", acc ++ [line])] := by
      simp [dictAppend]
    rw [happ, ih (acc ++ [line]) (fun x hx => h2 x (List.mem_cons_of_mem line hx))
      (fun x hx => h1 x (List.mem_cons_of_mem line hx))]
    simp

/-- Claim C4 counterexample: a README with no level-2 heading whose level-1
heading is not the first line; the heading resets the introduction section,
so earlier content is dropped and the result is not the entire content. -/
theorem C4_counterexample :
    extract_readme_content ("a" ++ nl ++ "# T") = [("introduction", "# T")] ∧
    pyStrip ("a" ++ nl ++ "# T") ≠ "# T" := by
  refine ⟨by decide, by decide⟩

/-- Claim C4 (corrected): for README content with no level-2 heading and no
level-1 heading outside the first line, the whole content (joined and
trimmed) lands in the single `introduction` section. -/
theorem C4_no_heading_all_intro (content : String)
    (h2 : ∀ l ∈ splitLines content, strStarts "## " l = false)
    (h1 : ∀ l ∈ (splitLines content).tail, strStarts "# " l = false) :
    extract_readme_content content = [("introduction", pyStrip content)] := by
  obtain ⟨l0, ls, hsplit⟩ : ∃ l0 ls, splitLines content = l0 :: ls := by
    cases hs : splitLines content with
    | nil => exact absurd hs (splitLines_ne_nil content)
    | cons l0 ls => exact ⟨l0, ls, rfl⟩
  have hA : ¬(strStarts "## " l0 = true) := by
    rw [h2 l0 (hsplit ▸ List.mem_cons_self l0 ls)]; decide
  have hfirst : extractLoop [] "introduction" (l0 :: ls) =
      extractLoop [("introduction", [l0])] "introduction" ls := by
    rw [extractLoop, if_neg hA]
    by_cases hB : strStarts "# " l0 = true
    · rw [if_pos hB]; rfl
    · rw [if_neg hB]; rfl
  have htail2 : ∀ l ∈ ls, strStarts "## " l = false := by
    intro x hx; exact h2 x (hsplit ▸ List.mem_cons_of_mem l0 hx)
  have htail1 : ∀ l ∈ ls, strStarts "# " l = false := by
    intro x hx
    have : x ∈ (splitLines content).tail := by rw [hsplit]; exact hx
    exact h1 x this
  rw [extract_readme_content, hsplit, hfirst,
    extractLoop_plain [l0] ls htail2 htail1]
  have hjoin : pyStrip (joinLines (l0 :: ls)) = pyStrip content := by
    have : (l0 :: ls) = splitLines content := hsplit.symm
    rw [this, joinLines_splitLines]
  simp [hjoin]

/-- Witness for C4 at a README whose only heading is the first line. -/
theorem C4_witness :
    extract_readme_content ("# Title" ++ nl ++ "hello") =
      [("introduction", pyStrip ("# Title" ++ nl ++ "hello"))] :=
  C4_no_heading_all_intro ("# Title" ++ nl ++ "hello") (by decide) (by decide)

/-! ## Cleaner-loop branch lemmas -/

theorem isDeclLine_ne (s : String) (h : isDeclLine s = true) :
    s ≠ "" ∧ s ≠ "CONSTANTS" ∧ s ≠ "TYPES" := by
  refine ⟨?_, ?_, ?_⟩ <;> rintro rfl <;> revert h <;> decide

/-- The declaration branch of the loop: flush any open block, then open a
fresh block holding just the stripped line. -/
theorem processLine_decl (st : CleanState) (line : String)
    (h : isDeclLine (pyStrip line) = true) :
    processLine st line =
      ⟨flushBlock st, true, [pyStrip line], st.constantsRemoved, st.typesRemoved⟩ := by
  obtain ⟨h1, h2, h3⟩ := isDeclLine_ne _ h
  simp only [processLine]
  rw [if_neg (by simp [h1]), if_neg (by simp [h2]), if_neg (by simp [h3]), if_pos h]

/-- The continuation branch of the loop: while a block is open, a
non-declaration line (not removed by an earlier rule) is appended to the
block's content. -/
theorem processLine_inCode (st : CleanState) (line : String)
    (hin : st.inCode = true)
    (hdecl : isDeclLine (pyStrip line) = false)
    (hskip : ¬(st.cleaned = [] ∧ pyStrip line = ""))
    (hc : ¬(st.constantsRemoved = false ∧ pyStrip line = "CONSTANTS"))
    (htp : ¬(st.typesRemoved = false ∧ pyStrip line = "TYPES")) :
    processLine st line = { st with blockContent := st.blockContent ++ [pyStrip line] } := by
  simp only [processLine]
  rw [if_neg (by simpa [Bool.and_eq_true_iff] using hskip),
    if_neg (by simpa [Bool.and_eq_true_iff, Bool.not_eq_true'] using hc),
    if_neg (by simpa [Bool.and_eq_true_iff, Bool.not_eq_true'] using htp),
    if_neg (by simp [hdecl]), if_pos hin]

/-- Claim C1 (corrected): a declaration line arriving after another
declaration line closes the open block — emitting the first line as a
complete fenced block of its own — and opens a new block containing only
the second line; consecutive declaration lines therefore land in distinct
blocks. -/
theorem C1_decl_closes_and_reopens (st : CleanState) (a b : String)
    (ha : isDeclLine (pyStrip a) = true) (hb : isDeclLine (pyStrip b) = true) :
    processLine (processLine st a) b =
      ⟨flushBlock st ++ ["```", pyStrip a, "```"], true, [pyStrip b],
       st.constantsRemoved, st.typesRemoved⟩ := by
  rw [processLine_decl st a ha, processLine_decl _ b hb]
  have hflush :
      flushBlock ⟨flushBlock st, true, [pyStrip a], st.constantsRemoved, st.typesRemoved⟩ =
        flushBlock st ++ ["```", pyStrip a, "```"] := by
    rw [flushBlock]
    simp
  rw [hflush]

/-- Witness for C1: two concrete consecutive declaration lines from the
initial state. -/
theorem C1_witness :
    processLine (processLine initState "func f()") "type T struct" =
      ⟨["```", "func f()", "```"], true, ["type T struct"], false, false⟩ := by
  rw [C1_decl_closes_and_reopens initState "func f()" "type T struct"
    (by decide) (by decide)]
  decide

/-- Claim C2 (corrected): with a block open, a non-declaration line (not
removed by the leading-blank or divider rules) is appended to the open
block's content; the block stays open and nothing is emitted, so the line
ends up inside the block rather than outside it. -/
theorem C2_nondecl_continues_block (st : CleanState) (line : String)
    (hin : st.inCode = true)
    (hdecl : isDeclLine (pyStrip line) = false)
    (hskip : ¬(st.cleaned = [] ∧ pyStrip line = ""))
    (hc : ¬(st.constantsRemoved = false ∧ pyStrip line = "CONSTANTS"))
    (htp : ¬(st.typesRemoved = false ∧ pyStrip line = "TYPES")) :
    processLine st line = { st with blockContent := st.blockContent ++ [pyStrip line] } ∧
    (processLine st line).inCode = true ∧
    (processLine st line).cleaned = st.cleaned := by
  have h := processLine_inCode st line hin hdecl hskip hc htp
  refine ⟨h, ?_, ?_⟩
  · rw [h]; exact hin
  · rw [h]

/-- Witness for C2: a concrete plain-text line while a block is open. -/
theorem C2_witness :
    processLine ⟨["x"], true, ["func f()"], false, false⟩ "plain text" =
      ⟨["x"], true, ["func f()", "plain text"], false, false⟩ ∧
    (processLine ⟨["x"], true, ["func f()"], false, false⟩ "plain text").inCode = true ∧
    (processLine ⟨["x"], true, ["func f()"], false, false⟩ "plain text").cleaned = ["x"] := by
  have h := C2_nondecl_continues_block ⟨["x"], true, ["func f()"], false, false⟩
    "plain text" rfl (by decide) (by decide) (by decide) (by decide)
  refine ⟨?_, h.2.1, h.2.2⟩
  rw [h.1]
  decide

/-! ## The block invariant and end-of-input closing -/

/-- The loop invariant relating `in_code_block` and `code_block_content`:
the content list is nonempty exactly while a block is open. -/
def goodSt (st : CleanState) : Prop := st.inCode = true ↔ st.blockContent ≠ []

theorem goodSt_init : goodSt initState := by
  simp [goodSt, initState]

theorem goodSt_process (st : CleanState) (line : String) (h : goodSt st) :
    goodSt (processLine st line) := by
  have hwc : ∀ x, goodSt { st with cleaned := x } := by
    intro x; simpa [goodSt] using h
  simp only [processLine]
  split
  · exact h
  split
  · simpa [goodSt] using h
  split
  · simpa [goodSt] using h
  split
  · simp [goodSt]
  split
  · rename_i hin
    simp [goodSt, hin]
  split
  · show goodSt (if (pyStrip (String.mk ((pyStrip line).data.drop 2)) == "") = true
      then st
      else { st with cleaned :=
        st.cleaned ++
          ["*" ++ escapeQuotes (pyStrip (String.mk ((pyStrip line).data.drop 2))) ++ "*"] })
    split
    · exact h
    · exact hwc _
  split
  · exact h
  · exact hwc _

theorem goodSt_foldl (ls : List String) (st : CleanState) (h : goodSt st) :
    goodSt (ls.foldl processLine st) := by
  induction ls generalizing st with
  | nil => exact h
  | cons line rest ih => exact ih (processLine st line) (goodSt_process st line h)

theorem goodSt_cleanStateOf (ls : List String) : goodSt (cleanStateOf ls) :=
  goodSt_foldl ls initState goodSt_init

theorem joinLines_concat_data (xs : List String) (e : String) :
    ∃ t, (joinLines (xs ++ [e])).data = t ++ e.data := by
  induction xs with
  | nil => exact ⟨[], rfl⟩
  | cons x xs ih =>
    obtain ⟨t, ht⟩ := ih
    have hne : xs ++ [e] ≠ [] := by simp
    rw [List.cons_append, joinLines_cons_of_ne_nil x (xs ++ [e]) hne]
    exact ⟨x.data ++ nl.data ++ t, by simp [ht]⟩

theorem ticks_suffix_pyStrip (s : String) (h : "```".data <:+ s.data) :
    "```".data <:+ (pyStrip s).data := by
  have hbt : isPySpace (Char.ofNat 96) = false := by decide
  have hform : "```".data = Char.ofNat 96 :: [Char.ofNat 96, Char.ofNat 96] := by decide
  have h1 : "```".data <:+ lstripL s.data := by
    rw [hform] at h ⊢
    exact cons_suffix_dropWhile isPySpace hbt h
  obtain ⟨t, ht⟩ := h1
  have h2 : rstripL (lstripL s.data) = lstripL s.data := by
    rw [← ht, rstripL, lstripL, List.reverse_append]
    have : "```".data.reverse = Char.ofNat 96 :: [Char.ofNat 96, Char.ofNat 96] := by decide
    rw [this, List.cons_append, List.dropWhile_cons, if_neg (by simp [hbt])]
    rw [← List.cons_append, ← this, List.reverse_append]
    simp
  show "```".data <:+ pyStripL s.data
  rw [pyStripL, h2, ← ht]
  exact ⟨t, rfl⟩

/-- Claim C8 (confirmed): when the loop finishes with a code block still
open, the cleaner's output ends with a closing fence. -/
theorem C8_open_block_closed_at_end (doc_output : String)
    (h : (cleanStateOf (splitLines doc_output).tail).inCode = true) :
    "```".data <:+ (clean_go_doc_output doc_output).data := by
  have hgood := goodSt_cleanStateOf (splitLines doc_output).tail
  have hne : (cleanStateOf (splitLines doc_output).tail).blockContent ≠ [] := hgood.mp h
  have hdoc : ¬((doc_output == "") = true) := by
    intro hh
    have heq : doc_output = "" := by simpa using hh
    rw [heq] at h
    exact absurd h (by decide)
  rw [clean_go_doc_output, if_neg hdoc, emittedLines, finalLines, flushBlock,
    if_pos (by simp [h, hne])]
  apply ticks_suffix_pyStrip
  have hlist :
      (cleanStateOf (splitLines doc_output).tail).cleaned ++ ["```"] ++
        (cleanStateOf (splitLines doc_output).tail).blockContent ++ ["```"] =
      ((cleanStateOf (splitLines doc_output).tail).cleaned ++ ["```"] ++
        (cleanStateOf (splitLines doc_output).tail).blockContent) ++ ["```"] := by
    simp
  rw [hlist]
  obtain ⟨t, ht⟩ := joinLines_concat_data
    ((cleanStateOf (splitLines doc_output).tail).cleaned ++ ["```"] ++
      (cleanStateOf (splitLines doc_output).tail).blockContent) "```"
  rw [ht]
  exact ⟨t, rfl⟩

/-- Witness for C8: the input ends inside an open block. -/
theorem C8_witness :
    "```".data <:+ (clean_go_doc_output ("hdr" ++ nl ++ "func f()")).data :=
  C8_open_block_closed_at_end ("hdr" ++ nl ++ "func f()") (by decide)

/-! ## Counting the divider tokens: state definitions -/

/-- All lines held by the loop state: emitted lines plus the pending block
content (which is flushed into the output no later than end of input). -/
def emitted (st : CleanState) : List String := st.cleaned ++ st.blockContent

def bnat (b : Bool) : Nat := if b then 1 else 0

/-- The removal flag governing a divider token. -/
def flagOf (tok : String) (st : CleanState) : Bool :=
  if tok == "CONSTANTS" then st.constantsRemoved else st.typesRemoved

theorem bnat_le_one (b : Bool) : bnat b ≤ 1 := by cases b <;> decide

theorem tok_facts (tok : String) (htok : tok = "CONSTANTS" ∨ tok = "TYPES") :
    tok ≠ "" ∧ isDeclLine tok = false ∧ strStarts "//" tok = false ∧
    escapeQuotes tok = tok ∧ bslashChar ∉ tok.data ∧ ¬(("```" : String) = tok) := by
  rcases htok with rfl | rfl <;> refine ⟨?_, ?_, ?_, ?_, ?_, ?_⟩ <;> decide

/-! ## Escaping lemmas -/

theorem escL_nil : escL [] = [] := rfl

theorem escL_cons (c : Char) (t : List Char) : escL (c :: t) = escChar c ++ escL t := rfl

theorem escL_append (l₁ l₂ : List Char) : escL (l₁ ++ l₂) = escL l₁ ++ escL l₂ := by
  simp [escL]

theorem escChar_ne_nil (c : Char) : escChar c ≠ [] := by
  rw [escChar]; split
  · simp
  · split <;> simp

theorem mem_escL {a : Char} {l : List Char} (h : a ∈ escL l) : a ∈ l ∨ a = bslashChar := by
  induction l with
  | nil => rw [escL_nil] at h; exact absurd h (by simp)
  | cons c t ih =>
    rw [escL_cons, List.mem_append] at h
    rcases h with h | h
    · rw [escChar] at h
      split at h
      · rename_i hc
        simp at h
        rcases h with rfl | rfl
        · exact Or.inr rfl
        · exact Or.inl (hc ▸ List.mem_cons_self _ _)
      · split at h
        · rename_i hc
          simp at h
          rcases h with rfl | rfl
          · exact Or.inr rfl
          · exact Or.inl (hc ▸ List.mem_cons_self _ _)
        · simp at h
          exact Or.inl (h ▸ List.mem_cons_self _ _)
    · rcases ih h with h | h
      · exact Or.inl (List.mem_cons_of_mem _ h)
      · exact Or.inr h

theorem eq_of_escL_eq {l m : List Char} (hm : bslashChar ∉ m) (h : escL l = m) :
    l = m := by
  induction l generalizing m with
  | nil => rw [escL_nil] at h; exact h
  | cons c t ih =>
    rw [escL_cons] at h
    by_cases hsq : c = squoteChar
    · exfalso
      subst hsq
      rw [show escChar squoteChar = [bslashChar, squoteChar] by decide] at h
      exact hm (h ▸ List.mem_cons_self _ _)
    · by_cases hdq : c = dquoteChar
      · exfalso
        subst hdq
        rw [show escChar dquoteChar = [bslashChar, dquoteChar] by decide] at h
        exact hm (h ▸ List.mem_cons_self _ _)
      · rw [show escChar c = [c] by rw [escChar, if_neg hsq, if_neg hdq],
          List.singleton_append] at h
        cases m with
        | nil => exact absurd h (by simp)
        | cons m0 ms =>
          injection h with h1 h2
          subst h1
          rw [ih (fun hb => hm (List.mem_cons_of_mem _ hb)) h2]

theorem escape_eq_tok {s tok : String} (hbs : bslashChar ∉ tok.data)
    (h : escapeQuotes s = tok) : s = tok := by
  have hd : escL s.data = tok.data := congrArg String.data h
  exact String.ext (eq_of_escL_eq hbs hd)

/-! ## Well-formed output lines -/

/-- An output line as produced by the cleaner: no leading or trailing
whitespace and no embedded newline. -/
def lineOk (e : String) : Prop :=
  (∀ c ∈ e.data.head?, isPySpace c = false) ∧
  (∀ c ∈ e.data.getLast?, isPySpace c = false) ∧ nlChar ∉ e.data

theorem lineOk_of_checks (e : String)
    (h1 : (match e.data.head? with | some c => !(isPySpace c) | none => true) = true)
    (h2 : (match e.data.getLast? with | some c => !(isPySpace c) | none => true) = true)
    (h3 : ¬(nlChar ∈ e.data)) : lineOk e := by
  refine ⟨?_, ?_, h3⟩
  · intro c hc
    rw [Option.mem_def] at hc
    rw [hc] at h1
    simpa using h1
  · intro c hc
    rw [Option.mem_def] at hc
    rw [hc] at h2
    simpa using h2

theorem lineOk_empty : lineOk "" :=
  lineOk_of_checks "" (by decide) (by decide) (by decide)

theorem lineOk_fence : lineOk "```" :=
  lineOk_of_checks "```" (by decide) (by decide) (by decide)

theorem head?_lstripL (m : List Char) : ∀ c ∈ (lstripL m).head?, isPySpace c = false := by
  intro c hc
  have h := List.head?_dropWhile_not isPySpace m
  rw [lstripL] at hc
  rw [Option.mem_def.mp hc] at h
  exact h

theorem rstripL_pre (m : List Char) : rstripL m <+: m := by
  have h := List.dropWhile_suffix (l := m.reverse) isPySpace
  have h2 := List.reverse_prefix.mpr h
  rw [List.reverse_reverse] at h2
  exact h2

theorem head?_prefix_eq {α} {t m : List α} (h : t <+: m) (hne : t ≠ []) :
    t.head? = m.head? := by
  obtain ⟨r, rfl⟩ := h
  cases t with
  | nil => exact absurd rfl hne
  | cons a s => rfl

theorem head?_pyStripL (m : List Char) :
    ∀ c ∈ (pyStripL m).head?, isPySpace c = false := by
  intro c hc
  rw [pyStripL] at hc
  by_cases hz : rstripL (lstripL m) = []
  · rw [hz] at hc; exact absurd (Option.mem_def.mp hc) (by simp)
  · rw [head?_prefix_eq (rstripL_pre (lstripL m)) hz] at hc
    exact head?_lstripL m c hc

theorem getLast?_pyStripL (m : List Char) :
    ∀ c ∈ (pyStripL m).getLast?, isPySpace c = false := by
  intro c hc
  rw [pyStripL, rstripL, List.getLast?_reverse] at hc
  exact head?_lstripL _ c hc

theorem mem_pyStripL {c : Char} {m : List Char} (h : c ∈ pyStripL m) : c ∈ m := by
  rw [pyStripL, rstripL] at h
  have h1 := List.mem_reverse.mp h
  have h2 := (List.dropWhile_sublist (l := (lstripL m).reverse) isPySpace).subset h1
  have h3 := List.mem_reverse.mp h2
  exact (List.dropWhile_sublist (l := m) isPySpace).subset h3

theorem lineOk_pyStrip (x : String) (h : nlChar ∉ x.data) : lineOk (pyStrip x) :=
  ⟨fun c hc => head?_pyStripL x.data c hc,
   fun c hc => getLast?_pyStripL x.data c hc,
   fun hc => h (mem_pyStripL hc)⟩

theorem lineOk_escape {s : String} (h : lineOk s) : lineOk (escapeQuotes s) := by
  obtain ⟨hh, hl, hn⟩ := h
  have hdata : (escapeQuotes s).data = escL s.data := rfl
  refine ⟨?_, ?_, ?_⟩
  · intro c hc
    rw [hdata] at hc
    cases hsd : s.data with
    | nil => rw [hsd, escL_nil] at hc; exact absurd (Option.mem_def.mp hc) (by simp)
    | cons c0 t =>
      have h0 : isPySpace c0 = false := hh c0 (by rw [hsd]; rfl)
      rw [hsd, escL_cons, escChar] at hc
      split at hc
      · simp at hc; subst hc; decide
      · split at hc
        · simp at hc; subst hc; decide
        · simp at hc; subst hc; exact h0
  · intro c hc
    rw [hdata] at hc
    rcases List.eq_nil_or_concat s.data with hnil | ⟨t, a, hconcat⟩
    · rw [hnil, escL_nil] at hc; exact absurd (Option.mem_def.mp hc) (by simp)
    · have ha : isPySpace a = false := by
        refine hl a ?_
        rw [hconcat, List.concat_eq_append, List.getLast?_concat]; rfl
      rw [hconcat, List.concat_eq_append, escL_append,
        List.getLast?_append_of_ne_nil _ (by
          intro hz
          exact escChar_ne_nil a (by simpa [escL, escChar] using hz))] at hc
      rw [show escL [a] = escChar a from by simp [escL], escChar] at hc
      split at hc
      · simp at hc; subst hc; decide
      · split at hc
        · simp at hc; subst hc; decide
        · simp at hc; subst hc; exact ha
  · intro hc
    rw [hdata] at hc
    rcases mem_escL hc with h | h
    · exact hn h
    · exact absurd h (by decide)

theorem lineOk_star (x : String) (hx : nlChar ∉ x.data) : lineOk ("*" ++ x ++ "*") := by
  have hdata : ("*" ++ x ++ "*").data = Char.ofNat 42 :: (x.data ++ [Char.ofNat 42]) := by
    rw [String.data_append, String.data_append,
      show "*".data = [Char.ofNat 42] by decide]
    simp
  refine ⟨?_, ?_, ?_⟩
  · intro c hc
    rw [hdata] at hc
    simp at hc; subst hc; decide
  · intro c hc
    rw [hdata, show (Char.ofNat 42 :: (x.data ++ [Char.ofNat 42])) =
      (Char.ofNat 42 :: x.data) ++ [Char.ofNat 42] by simp,
      List.getLast?_concat] at hc
    simp at hc; subst hc; decide
  · intro hc
    rw [hdata] at hc
    simp at hc
    rcases hc with h | h | h
    · exact absurd h (by decide)
    · exact hx h
    · exact absurd h (by decide)

/-! ## The remaining loop-branch lemmas -/

theorem processLine_skip (st : CleanState) (line : String)
    (h1 : st.cleaned = []) (h2 : pyStrip line = "") : processLine st line = st := by
  simp only [processLine]
  rw [if_pos (by simp [h1, h2])]

theorem processLine_const (st : CleanState) (line : String)
    (hskip : ¬(st.cleaned = [] ∧ pyStrip line = ""))
    (h2 : st.constantsRemoved = false) (h3 : pyStrip line = "CONSTANTS") :
    processLine st line = { st with constantsRemoved := true } := by
  simp only [processLine]
  rw [if_neg (by simpa [Bool.and_eq_true_iff] using hskip),
    if_pos (by simp [h2, h3])]

theorem processLine_types (st : CleanState) (line : String)
    (hskip : ¬(st.cleaned = [] ∧ pyStrip line = ""))
    (hc : ¬(st.constantsRemoved = false ∧ pyStrip line = "CONSTANTS"))
    (h2 : st.typesRemoved = false) (h3 : pyStrip line = "TYPES") :
    processLine st line = { st with typesRemoved := true } := by
  simp only [processLine]
  rw [if_neg (by simpa [Bool.and_eq_true_iff] using hskip),
    if_neg (by simpa [Bool.and_eq_true_iff, Bool.not_eq_true'] using hc),
    if_pos (by simp [h2, h3])]

/-- The converted comment text: `line.strip()[2:].strip()`. -/
def commentOf (line : String) : String := pyStrip (String.mk ((pyStrip line).data.drop 2))

theorem processLine_comment (st : CleanState) (line : String)
    (hskip : ¬(st.cleaned = [] ∧ pyStrip line = ""))
    (hc : ¬(st.constantsRemoved = false ∧ pyStrip line = "CONSTANTS"))
    (htp : ¬(st.typesRemoved = false ∧ pyStrip line = "TYPES"))
    (hdecl : isDeclLine (pyStrip line) = false)
    (hnotin : st.inCode = false)
    (hcm : strStarts "//" (pyStrip line) = true) :
    processLine st line =
      (if commentOf line == "" then st
       else { st with cleaned :=
         st.cleaned ++ ["*" ++ escapeQuotes (commentOf line) ++ "*"] }) := by
  simp only [processLine]
  rw [if_neg (by simpa [Bool.and_eq_true_iff] using hskip),
    if_neg (by simpa [Bool.and_eq_true_iff, Bool.not_eq_true'] using hc),
    if_neg (by simpa [Bool.and_eq_true_iff, Bool.not_eq_true'] using htp),
    if_neg (by simp [hdecl]), if_neg (by simp [hnotin]), if_pos hcm]
  rfl

theorem processLine_blank (st : CleanState) (line : String)
    (hskip : ¬(st.cleaned = [] ∧ pyStrip line = ""))
    (hc : ¬(st.constantsRemoved = false ∧ pyStrip line = "CONSTANTS"))
    (htp : ¬(st.typesRemoved = false ∧ pyStrip line = "TYPES"))
    (hdecl : isDeclLine (pyStrip line) = false)
    (hnotin : st.inCode = false)
    (hcm : strStarts "//" (pyStrip line) = false)
    (hbl : pyStrip line = "") : processLine st line = st := by
  simp only [processLine]
  rw [if_neg (by simpa [Bool.and_eq_true_iff] using hskip),
    if_neg (by simpa [Bool.and_eq_true_iff, Bool.not_eq_true'] using hc),
    if_neg (by simpa [Bool.and_eq_true_iff, Bool.not_eq_true'] using htp),
    if_neg (by simp [hdecl]), if_neg (by simp [hnotin]), if_neg (by simp [hcm]),
    if_pos (by simp [hbl])]

theorem processLine_plain (st : CleanState) (line : String)
    (hskip : ¬(st.cleaned = [] ∧ pyStrip line = ""))
    (hc : ¬(st.constantsRemoved = false ∧ pyStrip line = "CONSTANTS"))
    (htp : ¬(st.typesRemoved = false ∧ pyStrip line = "TYPES"))
    (hdecl : isDeclLine (pyStrip line) = false)
    (hnotin : st.inCode = false)
    (hcm : strStarts "//" (pyStrip line) = false)
    (hbl : pyStrip line ≠ "") :
    processLine st line =
      { st with cleaned := st.cleaned ++ [escapeQuotes (pyStrip line)] } := by
  simp only [processLine]
  rw [if_neg (by simpa [Bool.and_eq_true_iff] using hskip),
    if_neg (by simpa [Bool.and_eq_true_iff, Bool.not_eq_true'] using hc),
    if_neg (by simpa [Bool.and_eq_true_iff, Bool.not_eq_true'] using htp),
    if_neg (by simp [hdecl]), if_neg (by simp [hnotin]), if_neg (by simp [hcm]),
    if_neg (by simp [hbl])]

theorem star_ne_tok (x tok : String) (htok : tok = "CONSTANTS" ∨ tok = "TYPES") :
    ¬(("*" ++ x ++ "*") = tok) := by
  intro h
  have h1 : ("*" ++ x ++ "*").data.head? = some (Char.ofNat 42) := by
    rw [String.data_append, String.data_append, show "*".data = [Char.ofNat 42] by decide]
    rfl
  rcases htok with rfl | rfl
  · rw [h] at h1; exact absurd h1 (by decide)
  · rw [h] at h1; exact absurd h1 (by decide)

theorem count_flushBlock (tok : String) (hfence : ¬(("```" : String) = tok))
    (st : CleanState) (hst : goodSt st) :
    (flushBlock st).count tok = st.cleaned.count tok + st.blockContent.count tok := by
  have hfb : (("```" : String) == tok) = false := beq_eq_false_iff_ne.mpr hfence
  rw [flushBlock]
  split
  · simp only [List.count_append, List.count_singleton, hfb]
    simp
  · rename_i hcond
    have hbc : st.blockContent = [] := by
      by_cases hic : st.inCode = true
      · exact absurd (by simp [hic, hst.mp hic]) hcond
      · by_contra hcne
        exact hic (hst.mpr hcne)
    rw [hbc]
    simp

/-- One loop step conserves the token count held in the state (emitted lines
plus pending block content plus the removal flag), increasing it exactly
when the processed line strips to the token; and the flag is set exactly
once a token line has been seen. -/
theorem count_process (tok : String) (htok : tok = "CONSTANTS" ∨ tok = "TYPES")
    (st : CleanState) (line : String) (hst : goodSt st) :
    (emitted (processLine st line)).count tok + bnat (flagOf tok (processLine st line)) =
      (emitted st).count tok + bnat (flagOf tok st) +
        (if pyStrip line == tok then 1 else 0) ∧
    bnat (flagOf tok (processLine st line)) =
      min 1 (bnat (flagOf tok st) + (if pyStrip line == tok then 1 else 0)) := by
  obtain ⟨hne, hdecl0, hcm0, hesc0, hbs0, hfence0⟩ := tok_facts tok htok
  have hE0 : (("" : String) == tok) = false :=
    beq_eq_false_iff_ne.mpr (fun h => hne h.symm)
  have hble := bnat_le_one (flagOf tok st)
  have he0 : (emitted st).count tok = st.cleaned.count tok + st.blockContent.count tok := by
    rw [emitted, List.count_append]
  by_cases hA : st.cleaned = [] ∧ pyStrip line = ""
  · rw [processLine_skip st line hA.1 hA.2, hA.2, hE0]
    constructor
    · simp
    · simp
      omega
  by_cases hB : st.constantsRemoved = false ∧ pyStrip line = "CONSTANTS"
  · rw [processLine_const st line hA hB.1 hB.2, hB.2]
    have he : emitted { st with constantsRemoved := true } = emitted st := rfl
    rcases htok with rfl | rfl
    · have hf1 : flagOf "CONSTANTS" { st with constantsRemoved := true } = true := rfl
      have hf2 : flagOf "CONSTANTS" st = st.constantsRemoved := rfl
      have hind : ((("CONSTANTS" : String) == "CONSTANTS")) = true := by decide
      rw [he, hf1, hf2, hB.1, hind]
      constructor
      · simp [bnat]
      · decide
    · have hf1 : flagOf "TYPES" { st with constantsRemoved := true } = st.typesRemoved := rfl
      have hf2 : flagOf "TYPES" st = st.typesRemoved := rfl
      have hind : ((("CONSTANTS" : String) == "TYPES")) = false := by decide
      rw [he, hf1, hf2, hind]
      have := bnat_le_one st.typesRemoved
      constructor
      · simp
      · simp
        omega
  by_cases hC : st.typesRemoved = false ∧ pyStrip line = "TYPES"
  · rw [processLine_types st line hA hB hC.1 hC.2, hC.2]
    have he : emitted { st with typesRemoved := true } = emitted st := rfl
    rcases htok with rfl | rfl
    · have hf1 : flagOf "CONSTANTS" { st with typesRemoved := true } =
        st.constantsRemoved := rfl
      have hf2 : flagOf "CONSTANTS" st = st.constantsRemoved := rfl
      have hind : ((("TYPES" : String) == "CONSTANTS")) = false := by decide
      rw [he, hf1, hf2, hind]
      have := bnat_le_one st.constantsRemoved
      constructor
      · simp
      · simp
        omega
    · have hf1 : flagOf "TYPES" { st with typesRemoved := true } = true := rfl
      have hf2 : flagOf "TYPES" st = st.typesRemoved := rfl
      have hind : ((("TYPES" : String) == "TYPES")) = true := by decide
      rw [he, hf1, hf2, hC.1, hind]
      constructor
      · simp [bnat]
      · decide
  by_cases hD : isDeclLine (pyStrip line) = true
  · have hstok : (pyStrip line == tok) = false := by
      apply beq_eq_false_iff_ne.mpr
      intro heq
      rw [heq, hdecl0] at hD
      exact Bool.noConfusion hD
    rw [processLine_decl st line hD, hstok]
    have hcf := count_flushBlock tok hfence0 st hst
    have he : emitted (⟨flushBlock st, true, [pyStrip line], st.constantsRemoved,
        st.typesRemoved⟩ : CleanState) = flushBlock st ++ [pyStrip line] := rfl
    have hfl : flagOf tok (⟨flushBlock st, true, [pyStrip line], st.constantsRemoved,
        st.typesRemoved⟩ : CleanState) = flagOf tok st := rfl
    rw [he, hfl, he0]
    constructor
    · rw [List.count_append, hcf, List.count_singleton, hstok]
      simp
    · simp
      omega
  have hD2 : isDeclLine (pyStrip line) = false := Bool.eq_false_iff.mpr hD
  have hflag_mem : pyStrip line = tok → flagOf tok st = true := by
    intro hseq
    rcases htok with rfl | rfl
    · show (if (("CONSTANTS" : String) == "CONSTANTS") = true then st.constantsRemoved
        else st.typesRemoved) = true
      rw [if_pos (by decide)]
      cases hcr : st.constantsRemoved
      · exact absurd ⟨hcr, hseq⟩ hB
      · rfl
    · show (if (("TYPES" : String) == "CONSTANTS") = true then st.constantsRemoved
        else st.typesRemoved) = true
      rw [if_neg (by decide)]
      cases htr : st.typesRemoved
      · exact absurd ⟨htr, hseq⟩ hC
      · rfl
  by_cases hE : st.inCode = true
  · rw [processLine_inCode st line hE hD2 hA hB hC]
    have he : emitted { st with blockContent := st.blockContent ++ [pyStrip line] } =
        st.cleaned ++ (st.blockContent ++ [pyStrip line]) := rfl
    have hfl : flagOf tok { st with blockContent := st.blockContent ++ [pyStrip line] } =
        flagOf tok st := rfl
    rw [he, hfl, he0]
    constructor
    · rw [List.count_append, List.count_append, List.count_singleton]
      omega
    · by_cases hstok : (pyStrip line == tok) = true
      · have hseq : pyStrip line = tok := by simpa using hstok
        rw [hflag_mem hseq, hstok]
        decide
      · rw [Bool.eq_false_iff.mpr hstok]
        simp
        omega
  have hE2 : st.inCode = false := Bool.eq_false_iff.mpr hE
  by_cases hF : strStarts "//" (pyStrip line) = true
  · have hstok : (pyStrip line == tok) = false := by
      apply beq_eq_false_iff_ne.mpr
      intro heq
      rw [heq, hcm0] at hF
      exact Bool.noConfusion hF
    rw [processLine_comment st line hA hB hC hD2 hE2 hF, hstok]
    have hstar : (("*" ++ escapeQuotes (commentOf line) ++ "*") == tok) = false :=
      beq_eq_false_iff_ne.mpr (star_ne_tok _ tok htok)
    split
    · constructor
      · simp
      · simp
        omega
    · have he : emitted { st with cleaned :=
          st.cleaned ++ ["*" ++ escapeQuotes (commentOf line) ++ "*"] } =
          (st.cleaned ++ ["*" ++ escapeQuotes (commentOf line) ++ "*"]) ++
            st.blockContent := rfl
      have hfl : flagOf tok { st with cleaned :=
          st.cleaned ++ ["*" ++ escapeQuotes (commentOf line) ++ "*"] } =
          flagOf tok st := rfl
      rw [he, hfl, he0]
      constructor
      · rw [List.count_append, List.count_append, List.count_singleton, hstar]
        simp
      · simp
        omega
  have hF2 : strStarts "//" (pyStrip line) = false := Bool.eq_false_iff.mpr hF
  by_cases hG : pyStrip line = ""
  · rw [processLine_blank st line hA hB hC hD2 hE2 hF2 hG, hG, hE0]
    constructor
    · simp
    · simp
      omega
  · rw [processLine_plain st line hA hB hC hD2 hE2 hF2 hG]
    have he : emitted { st with cleaned := st.cleaned ++ [escapeQuotes (pyStrip line)] } =
        (st.cleaned ++ [escapeQuotes (pyStrip line)]) ++ st.blockContent := rfl
    have hfl : flagOf tok { st with cleaned :=
        st.cleaned ++ [escapeQuotes (pyStrip line)] } = flagOf tok st := rfl
    have hesc_count : ((escapeQuotes (pyStrip line)) == tok) =
        (pyStrip line == tok) := by
      by_cases hstok : (pyStrip line == tok) = true
      · have hseq : pyStrip line = tok := by simpa using hstok
        rw [hseq, hesc0]
      · have hsne : pyStrip line ≠ tok := by simpa using hstok
        rw [Bool.eq_false_iff.mpr hstok]
        apply beq_eq_false_iff_ne.mpr
        intro heq
        exact hsne (escape_eq_tok hbs0 heq)
    rw [he, hfl, he0]
    constructor
    · rw [List.count_append, List.count_append, List.count_singleton, hesc_count]
      omega
    · by_cases hstok : (pyStrip line == tok) = true
      · have hseq : pyStrip line = tok := by simpa using hstok
        rw [hflag_mem hseq, hstok]
        decide
      · rw [Bool.eq_false_iff.mpr hstok]
        simp
        omega

/-- The fold version of `count_process`: over a whole line list, the lines
held in the state plus the flag account exactly for every processed line
stripping to the token, and the flag is set iff at least one such line has
been processed. -/
theorem count_foldl (tok : String) (htok : tok = "CONSTANTS" ∨ tok = "TYPES")
    (ls : List String) (st : CleanState) (hst : goodSt st) :
    (emitted (ls.foldl processLine st)).count tok +
        bnat (flagOf tok (ls.foldl processLine st)) =
      (emitted st).count tok + bnat (flagOf tok st) +
        ls.countP (fun l => pyStrip l == tok) ∧
    bnat (flagOf tok (ls.foldl processLine st)) =
      min 1 (bnat (flagOf tok st) + ls.countP (fun l => pyStrip l == tok)) := by
  induction ls generalizing st with
  | nil =>
    refine ⟨by simp, ?_⟩
    have := bnat_le_one (flagOf tok st)
    simp
    omega
  | cons line rest ih =>
    have hstep := count_process tok htok st line hst
    have hgood := goodSt_process st line hst
    have hrec := ih (processLine st line) hgood
    rw [List.foldl_cons]
    constructor
    · rw [hrec.1, hstep.1, List.countP_cons]
      omega
    · rw [hrec.2, hstep.2, List.countP_cons]
      omega

/-- Every line held in the loop state is a well-formed output line. -/
def emittedOk (st : CleanState) : Prop := ∀ e ∈ emitted st, lineOk e

theorem emittedOk_init : emittedOk initState := by
  intro e he
  simp [emitted, initState] at he

theorem mem_flushBlock {e : String} {st : CleanState} (h : e ∈ flushBlock st) :
    e ∈ st.cleaned ∨ e = "```" ∨ e ∈ st.blockContent := by
  rw [flushBlock] at h
  split at h
  · simp only [List.append_assoc, List.mem_append, List.mem_singleton] at h
    rcases h with h | h | h | h
    · exact Or.inl h
    · exact Or.inr (Or.inl h)
    · exact Or.inr (Or.inr h)
    · exact Or.inr (Or.inl h)
  · exact Or.inl h

theorem emittedOk_process (st : CleanState) (line : String)
    (hline : nlChar ∉ line.data) (h : emittedOk st) :
    emittedOk (processLine st line) := by
  have hstrip_ok : lineOk (pyStrip line) := lineOk_pyStrip line hline
  simp only [processLine]
  split
  · exact h
  split
  · intro e he; exact h e he
  split
  · intro e he; exact h e he
  split
  · intro e he
    have he2 : e ∈ flushBlock st ++ [pyStrip line] := he
    rw [List.mem_append] at he2
    rcases he2 with he2 | he2
    · rcases mem_flushBlock he2 with h1 | h1 | h1
      · exact h e (List.mem_append.mpr (Or.inl h1))
      · rw [h1]; exact lineOk_fence
      · exact h e (List.mem_append.mpr (Or.inr h1))
    · rw [List.mem_singleton.mp he2]; exact hstrip_ok
  split
  · intro e he
    have he2 : e ∈ st.cleaned ++ (st.blockContent ++ [pyStrip line]) := he
    simp only [List.mem_append, List.mem_singleton] at he2
    rcases he2 with he2 | he2 | he2
    · exact h e (List.mem_append.mpr (Or.inl he2))
    · exact h e (List.mem_append.mpr (Or.inr he2))
    · rw [he2]; exact hstrip_ok
  split
  · show emittedOk (if (commentOf line == "") = true then st
      else { st with cleaned :=
        st.cleaned ++ ["*" ++ escapeQuotes (commentOf line) ++ "*"] })
    split
    · exact h
    · intro e he
      have he2 : e ∈ (st.cleaned ++ ["*" ++ escapeQuotes (commentOf line) ++ "*"]) ++
          st.blockContent := he
      simp only [List.append_assoc, List.mem_append, List.mem_singleton] at he2
      rcases he2 with he2 | he2 | he2
      · exact h e (List.mem_append.mpr (Or.inl he2))
      · rw [he2]
        apply lineOk_star
        intro hmem
        rcases mem_escL hmem with hm | hm
        · have h1 := mem_pyStripL hm
          have h2 := List.mem_of_mem_drop h1
          have h3 := mem_pyStripL h2
          exact hline h3
        · exact absurd hm (by decide)
      · exact h e (List.mem_append.mpr (Or.inr he2))
  split
  · exact h
  · intro e he
    have he2 : e ∈ (st.cleaned ++ [escapeQuotes (pyStrip line)]) ++ st.blockContent := he
    simp only [List.append_assoc, List.mem_append, List.mem_singleton] at he2
    rcases he2 with he2 | he2 | he2
    · exact h e (List.mem_append.mpr (Or.inl he2))
    · rw [he2]; exact lineOk_escape hstrip_ok
    · exact h e (List.mem_append.mpr (Or.inr he2))

theorem emittedOk_foldl (ls : List String) (hls : ∀ l ∈ ls, nlChar ∉ l.data)
    (st : CleanState) (hst : emittedOk st) : emittedOk (ls.foldl processLine st) := by
  induction ls generalizing st with
  | nil => exact hst
  | cons line rest ih =>
    exact ih (fun l hl => hls l (List.mem_cons_of_mem line hl)) (processLine st line)
      (emittedOk_process st line (hls line (List.mem_cons_self line rest)) hst)

theorem splitLinesAux_mem_no_nl (m : List Char) (acc : List Char) (hacc : nlChar ∉ acc) :
    ∀ l ∈ splitLinesAux acc m, nlChar ∉ l.data := by
  induction m generalizing acc with
  | nil =>
    intro l hl
    rw [splitLinesAux, List.mem_singleton] at hl
    rw [hl]
    intro hmem
    exact hacc (List.mem_reverse.mp hmem)
  | cons c r ih =>
    intro l hl
    rw [splitLinesAux] at hl
    by_cases hc : c = nlChar
    · rw [if_pos hc, List.mem_cons] at hl
      rcases hl with rfl | hl2
      · intro hmem; exact hacc (List.mem_reverse.mp hmem)
      · exact ih [] (by simp) l hl2
    · rw [if_neg hc] at hl
      refine ih (c :: acc) ?_ l hl
      intro hm
      rcases List.mem_cons.mp hm with h1 | h1
      · exact hc h1.symm
      · exact hacc h1

theorem splitLines_mem_no_nl (s : String) : ∀ l ∈ splitLines s, nlChar ∉ l.data :=
  splitLinesAux_mem_no_nl s.data [] (by simp)

/-! ## Joining, stripping and re-splitting the emitted lines -/

theorem lineOk_ne_data {e : String} (he : lineOk e) (hne : e ≠ "") :
    ∃ c d, e.data = c :: d ∧ isPySpace c = false := by
  cases hd : e.data with
  | nil => exact absurd (String.ext hd) hne
  | cons c d =>
    refine ⟨c, d, rfl, ?_⟩
    exact he.1 c (by rw [hd]; rfl)

theorem lstripL_eq_self_of_head (m : List Char)
    (hm : ∀ c ∈ m.head?, isPySpace c = false) : lstripL m = m := by
  cases m with
  | nil => rfl
  | cons c d => exact lstripL_cons_of_head (hm c rfl)

theorem rstripL_eq_self_of_getLast (m : List Char)
    (hm : ∀ c ∈ m.getLast?, isPySpace c = false) : rstripL m = m := by
  rw [rstripL]
  have h2 : lstripL m.reverse = m.reverse := by
    apply lstripL_eq_self_of_head
    intro c hc
    rw [List.head?_reverse] at hc
    exact hm c hc
  rw [h2, List.reverse_reverse]

theorem joinLines_concat (M : List String) (e : String) (hM : M ≠ []) :
    joinLines (M ++ [e]) = joinLines M ++ nl ++ e := by
  induction M with
  | nil => exact absurd rfl hM
  | cons x xs ih =>
    cases xs with
    | nil => rfl
    | cons y ys =>
      rw [List.cons_append, joinLines_cons_of_ne_nil x ((y :: ys) ++ [e]) (by simp),
        joinLines_cons_of_ne_nil x (y :: ys) (by simp), ih (by simp)]
      apply String.ext
      simp [String.data_append]

theorem lstrip_joinLines (L : List String) (hA : ∀ e ∈ L, lineOk e) :
    lstripL (joinLines L).data = (joinLines (L.dropWhile (fun e => e == ""))).data := by
  induction L with
  | nil => rfl
  | cons e rest ih =>
    by_cases he : e = ""
    · subst he
      rw [List.dropWhile_cons, if_pos (by simp)]
      cases rest with
      | nil => rfl
      | cons r rs =>
        rw [joinLines_cons_of_ne_nil "" (r :: rs) (by simp)]
        have hd : ("" ++ nl ++ joinLines (r :: rs)).data =
            nlChar :: (joinLines (r :: rs)).data := by
          simp [nl, String.singleton]
        rw [hd, lstripL, List.dropWhile_cons, if_pos (by decide)]
        exact ih (fun x hx => hA x (List.mem_cons_of_mem _ hx))
    · rw [List.dropWhile_cons, if_neg (by simp [he])]
      apply lstripL_eq_self_of_head
      intro c0 hc0
      obtain ⟨c, d, hcd, hcns⟩ := lineOk_ne_data (hA e (List.mem_cons_self _ _)) he
      cases rest with
      | nil =>
        rw [show joinLines [e] = e from rfl, hcd] at hc0
        rw [Option.mem_def] at hc0
        injection hc0 with hc1
        rw [← hc1]
        exact hcns
      | cons r rs =>
        rw [joinLines_cons_of_ne_nil e (r :: rs) (by simp), String.data_append,
          String.data_append, hcd] at hc0
        rw [List.cons_append, List.cons_append, List.head?_cons, Option.mem_def] at hc0
        injection hc0 with hc1
        rw [← hc1]
        exact hcns

theorem rstrip_joinLines (L : List String) (hA : ∀ e ∈ L, lineOk e) :
    rstripL (joinLines L).data =
      (joinLines ((L.reverse.dropWhile (fun e => e == "")).reverse)).data := by
  induction L using List.reverseRecOn with
  | nil => rfl
  | append_singleton M e ih =>
    have hAM : ∀ x ∈ M, lineOk x := fun x hx => hA x (by simp [hx])
    by_cases he : e = ""
    · subst he
      by_cases hM : M = []
      · subst hM
        rfl
      · rw [joinLines_concat M "" hM]
        have hd : (joinLines M ++ nl ++ "").data = (joinLines M).data ++ [nlChar] := by
          simp [nl, String.singleton]
        rw [hd]
        have hr : rstripL ((joinLines M).data ++ [nlChar]) =
            rstripL (joinLines M).data := by
          rw [rstripL, rstripL, lstripL, lstripL, List.reverse_append,
            show ([nlChar].reverse ++ (joinLines M).data.reverse) =
              nlChar :: (joinLines M).data.reverse by simp,
            List.dropWhile_cons, if_pos (by decide)]
        rw [hr, ih hAM]
        rw [List.reverse_append,
          show (([""] : List String).reverse ++ M.reverse) = "" :: M.reverse by simp,
          List.dropWhile_cons, if_pos (by simp)]
    · have hok_e := hA e (by simp)
      have hedne : e.data ≠ [] := by
        intro hz
        exact he (String.ext hz)
      have hlast : ∀ c ∈ ((joinLines (M ++ [e])).data).getLast?, isPySpace c = false := by
        intro c hc
        by_cases hM : M = []
        · subst hM
          exact hok_e.2.1 c hc
        · rw [joinLines_concat M e hM, String.data_append,
            List.getLast?_append_of_ne_nil _ hedne] at hc
          exact hok_e.2.1 c hc
      rw [rstripL_eq_self_of_getLast _ hlast, List.reverse_append,
        show (([e] : List String).reverse ++ M.reverse) = e :: M.reverse by simp,
        List.dropWhile_cons, if_neg (by simp [he]), List.reverse_cons,
        List.reverse_reverse]

theorem splitLines_joinLines (L : List String) (hnl : ∀ e ∈ L, nlChar ∉ e.data)
    (h : L ≠ []) : splitLines (joinLines L) = L := by
  induction L with
  | nil => exact absurd rfl h
  | cons e rest ih =>
    cases rest with
    | nil => exact splitLines_no_nl e (hnl e (List.mem_cons_self _ _))
    | cons r rs =>
      rw [joinLines_cons_of_ne_nil e (r :: rs) (by simp),
        splitLines_append e (joinLines (r :: rs)) (hnl e (List.mem_cons_self _ _)),
        ih (fun x hx => hnl x (List.mem_cons_of_mem _ hx)) (by simp)]

theorem count_drop_empties (L : List String) (tok : String) (ht : tok ≠ "") :
    (L.dropWhile (fun e => e == "")).count tok = L.count tok := by
  conv_rhs => rw [← List.takeWhile_append_dropWhile (p := fun e => e == "") (l := L)]
  rw [List.count_append]
  have h0 : (L.takeWhile (fun e => e == "")).count tok = 0 := by
    rw [List.count_eq_zero]
    intro hmem
    have := List.mem_takeWhile_imp hmem
    simp at this
    exact ht this
  omega

/-- Joining the emitted lines, stripping the result, and re-splitting it
preserves the number of lines equal to a fixed nonempty trimmmed token. -/
theorem count_strip_join (L : List String) (hA : ∀ e ∈ L, lineOk e)
    (tok : String) (ht : tok ≠ "") :
    (splitLines (pyStrip (joinLines L))).count tok = L.count tok := by
  have hM : ∀ e ∈ L.dropWhile (fun e => e == ""), lineOk e :=
    fun e he => hA e ((List.dropWhile_sublist _).subset he)
  have h1 : lstripL (joinLines L).data =
      (joinLines (L.dropWhile (fun e => e == ""))).data := lstrip_joinLines L hA
  set M := L.dropWhile (fun e => e == "") with hMdef
  have h2 : rstripL (joinLines M).data =
      (joinLines ((M.reverse.dropWhile (fun e => e == "")).reverse)).data :=
    rstrip_joinLines M hM
  set N := (M.reverse.dropWhile (fun e => e == "")).reverse with hNdef
  have hstrip : pyStrip (joinLines L) = joinLines N := by
    apply String.ext
    show pyStripL (joinLines L).data = (joinLines N).data
    rw [pyStripL, h1, h2]
  rw [hstrip]
  have hN : ∀ e ∈ N, lineOk e := by
    intro e he
    rw [hNdef] at he
    have h3 := List.mem_reverse.mp he
    have h4 := (List.dropWhile_sublist _).subset h3
    exact hM e (List.mem_reverse.mp h4)
  have hcount_N : N.count tok = L.count tok := by
    rw [hNdef, List.count_reverse, count_drop_empties _ tok ht, List.count_reverse,
      hMdef]
    exact count_drop_empties L tok ht
  by_cases hNnil : N = []
  · rw [hNnil, ← hcount_N, hNnil]
    show (splitLines "").count tok = ([] : List String).count tok
    rw [splitLines_no_nl "" (by simp), List.count_singleton,
      beq_eq_false_iff_ne.mpr (fun hh => ht hh.symm)]
    rfl
  · rw [splitLines_joinLines N (fun e he => (hN e he).2.2) hNnil, hcount_N]

/-- Claim C5 (corrected): counting lines equal to a divider token
(`CONSTANTS` or `TYPES`) in the cleaner's output: exactly one occurrence is
removed among the post-first-line-drop input lines that strip to the token
(when any is present), and all others are retained. -/
theorem C5_token_removed_once (doc_output tok : String)
    (htok : tok = "CONSTANTS" ∨ tok = "TYPES") :
    (splitLines (clean_go_doc_output doc_output)).count tok =
      ((splitLines doc_output).tail.countP (fun l => pyStrip l == tok)) -
        min 1 ((splitLines doc_output).tail.countP (fun l => pyStrip l == tok)) := by
  obtain ⟨hne, _, _, _, _, hfence0⟩ := tok_facts tok htok
  by_cases hdoc : (doc_output == "") = true
  · have heq : doc_output = "" := by simpa using hdoc
    subst heq
    rw [show clean_go_doc_output "" = "" from rfl,
      splitLines_no_nl "" (by simp), List.count_singleton,
      beq_eq_false_iff_ne.mpr (fun hh => hne hh.symm)]
    simp
  · set ls := (splitLines doc_output).tail with hls
    have hlsnl : ∀ l ∈ ls, nlChar ∉ l.data := by
      intro l hl
      exact splitLines_mem_no_nl doc_output l (List.mem_of_mem_tail hl)
    have hgood := goodSt_cleanStateOf ls
    have hok : emittedOk (cleanStateOf ls) :=
      emittedOk_foldl ls hlsnl initState emittedOk_init
    have hcnt := count_foldl tok htok ls initState goodSt_init
    have hfin : (finalLines (cleanStateOf ls)).count tok =
        (emitted (cleanStateOf ls)).count tok := by
      rw [finalLines, count_flushBlock tok hfence0 _ hgood, emitted, List.count_append]
    have hfinok : ∀ e ∈ finalLines (cleanStateOf ls), lineOk e := by
      intro e he
      rcases mem_flushBlock he with h1 | h1 | h1
      · exact hok e (List.mem_append.mpr (Or.inl h1))
      · rw [h1]; exact lineOk_fence
      · exact hok e (List.mem_append.mpr (Or.inr h1))
    rw [clean_go_doc_output, if_neg hdoc, emittedLines, ← hls]
    rw [count_strip_join (finalLines (cleanStateOf ls)) hfinok tok hne, hfin]
    have hf0 : flagOf tok initState = false := by
      rw [flagOf]; split <;> rfl
    have hc0 : (emitted initState).count tok = 0 := rfl
    have h1 := hcnt.1
    have h2 := hcnt.2
    rw [hf0] at h1 h2
    rw [hc0] at h1
    rw [show bnat false = 0 from rfl] at h1 h2
    have hcs : cleanStateOf ls = ls.foldl processLine initState := rfl
    rw [hcs]
    omega

/-- Witness for C5: two post-drop `CONSTANTS` lines, one retained. -/
theorem C5_witness :
    (splitLines (clean_go_doc_output
        ("X" ++ nl ++ "CONSTANTS" ++ nl ++ "foo" ++ nl ++ "CONSTANTS"))).count
      "CONSTANTS" =
      ((splitLines ("X" ++ nl ++ "CONSTANTS" ++ nl ++ "foo" ++ nl ++
          "CONSTANTS")).tail.countP (fun l => pyStrip l == "CONSTANTS")) -
        min 1 ((splitLines ("X" ++ nl ++ "CONSTANTS" ++ nl ++ "foo" ++ nl ++
          "CONSTANTS")).tail.countP (fun l => pyStrip l == "CONSTANTS")) :=
  C5_token_removed_once ("X" ++ nl ++ "CONSTANTS" ++ nl ++ "foo" ++ nl ++ "CONSTANTS")
    "CONSTANTS" (Or.inl rfl)

end DocsGen

